import Mathlib

/-!
Verification of the document-to-Markdown conversion pipeline
(`pdf_ocr_to_markdown.py`, `pptx_to_markdown.py`, `xlsx_to_markdown.py`).

Strings are modelled as `List Char`.  Python's `str.strip()` / `str.split()`
(whitespace versions) are embedded as `pyStrip` / `pyWords` over an explicit
whitespace predicate; `str.split('\n')` is `splitLines`, `'\n'.join` is
`joinLines`, `' '.join` / `' | '.join` are `joinSep` / `joinCells`;
`str.replace` on one-character patterns is an explicit character expansion.
Fallible library calls are modelled with `Except`.
-/

/-- Whitespace characters, as Python's `str.strip` / `str.split` treat them
(ASCII fragment; the argument never depends on the exact set). -/
def isWS (c : Char) : Bool :=
  c = ' ' || c = '\t' || c = '\n' || c = '\r' || c = '\x0b' || c = '\x0c'

/-- Python `s.strip()`: drop leading and trailing whitespace. -/
def pyStrip (l : List Char) : List Char :=
  ((l.dropWhile isWS).reverse.dropWhile isWS).reverse

/-- Worker for Python `s.split()` (no argument): `acc` is the reversed
current word. -/
def pyWordsAux : List Char → List Char → List (List Char)
  | [], acc => if acc = [] then [] else [acc.reverse]
  | c :: cs, acc =>
    if isWS c then
      if acc = [] then pyWordsAux cs [] else acc.reverse :: pyWordsAux cs []
    else
      pyWordsAux cs (c :: acc)

/-- Python `s.split()`: maximal runs of non-whitespace characters. -/
def pyWords (l : List Char) : List (List Char) := pyWordsAux l []

/-- Python `sep.join(parts)` for a one-character separator. -/
def joinSep (sep : Char) : List (List Char) → List Char
  | [] => []
  | [w] => w
  | w :: ws => w ++ sep :: joinSep sep ws

/-- Python `s.split('\n')`: always at least one piece, empty pieces kept. -/
def splitLines : List Char → List (List Char)
  | [] => [[]]
  | c :: cs =>
    if c = '\n' then [] :: splitLines cs
    else
      match splitLines cs with
      | l :: ls => (c :: l) :: ls
      | [] => [[c]]

/-- Python `'\n'.join(lines)`. -/
def joinLines : List (List Char) → List Char := joinSep '\n'

/-- Strategy tag returned by `extract_text_from_page`
(`"text"`, `"ocr"`, `"none"` in the source). -/
inductive Tag where
  | text
  | ocr
  | none
  deriving DecidableEq, Repr

/--
`extract_text_from_page` (pdf_ocr_to_markdown.py, lines 46-75).
`raw` is what `page.get_text("text")` returned, `ocrAvailable` is the
module-level `OCR_AVAILABLE` flag, and `ocrOutcome` is the body of the
`try:` block: `Except.error` when any of the render/OCR calls raises
(the `except` branch only prints), `Except.ok r` when OCR returns `r`.
-/
def extract_text_from_page (raw : List Char) (ocrAvailable : Bool)
    (ocrOutcome : Except (List Char) (List Char)) : List Char × Tag :=
  let text := pyStrip raw
  if text.length > 50 then (text, Tag.text)
  else
    let fallback : List Char × Tag :=
      (text, if text = [] then Tag.none else Tag.text)
    if ocrAvailable then
      match ocrOutcome with
      | Except.ok r =>
        let ocr_text := pyStrip r
        if ocr_text = [] then fallback else (ocr_text, Tag.ocr)
      | Except.error _ => fallback
    else fallback

/--
`extract_text_from_page` with the direct-text call itself allowed to fail:
`getText` models `page.get_text("text")`, which sits OUTSIDE the `try:`
block, so its exception propagates out of the function.
-/
def extract_text_from_pageE (getText : Except (List Char) (List Char))
    (ocrAvailable : Bool) (ocrOutcome : Except (List Char) (List Char)) :
    Except (List Char) (List Char × Tag) :=
  match getText with
  | Except.error e => Except.error e
  | Except.ok raw => Except.ok (extract_text_from_page raw ocrAvailable ocrOutcome)

/-- One line of `clean_text_for_markdown`'s first loop: strip, and when
non-blank collapse interior whitespace runs to a single space
(`' '.join(line.split())`). -/
def cleanLine (line : List Char) : List Char :=
  let s := pyStrip line
  if s = [] then [] else joinSep ' ' (pyWords s)

/-- Second loop of `clean_text_for_markdown`: keep at most two consecutive
blank lines; `blank` is the running `blank_count`. -/
def limitBlanks : List (List Char) → Nat → List (List Char)
  | [], _ => []
  | l :: ls, blank =>
    if l = [] then
      if blank + 1 ≤ 2 then l :: limitBlanks ls (blank + 1)
      else limitBlanks ls (blank + 1)
    else l :: limitBlanks ls 0

/-- `clean_text_for_markdown` (pdf_ocr_to_markdown.py, lines 78-107). -/
def clean_text_for_markdown (text : List Char) : List Char :=
  joinLines (limitBlanks ((splitLines text).map cleanLine) 0)

/-- Python `s.replace("|", "\\|")`: every pipe gains a preceding backslash. -/
def pyEscapePipes : List Char → List Char
  | [] => []
  | c :: cs =>
    if c = '|' then '\\' :: '|' :: pyEscapePipes cs
    else c :: pyEscapePipes cs

/-- Python `s.replace("\n", "<br>")`. -/
def pyReplaceNl : List Char → List Char
  | [] => []
  | c :: cs =>
    if c = '\n' then '<' :: 'b' :: 'r' :: '>' :: pyReplaceNl cs
    else c :: pyReplaceNl cs

/-- `clean_cell_value` (xlsx_to_markdown.py, lines 29-43): `Option.none`
models a `None` cell; a non-`None` value enters as its `str()` rendering. -/
def clean_cell_value (value : Option (List Char)) : List Char :=
  match value with
  | Option.none => []
  | Option.some v => pyReplaceNl (pyEscapePipes (pyStrip v))

/-- `" | ".join(cells)`. -/
def joinCells : List (List Char) → List Char
  | [] => []
  | [c] => c
  | c :: cs => c ++ ' ' :: '|' :: ' ' :: joinCells cs

/-- `"| " + " | ".join(cells) + " |"`: one Markdown table row. -/
def mkRow (cells : List (List Char)) : List Char :=
  '|' :: ' ' :: (joinCells cells ++ [' ', '|'])

/-- The `"---"` cell text of a header separator row. -/
def dashCell : List Char := ['-', '-', '-']

/-- Header separator row: `"| " + " | ".join(["---"] * n) + " |"`. -/
def sepRow (n : Nat) : List Char := mkRow (List.replicate n dashCell)

/-- The number of trailing `None` cells a row keeps after the inner loop of
the `max_cols` scan (xlsx_to_markdown.py, lines 68-73): a row contributes
`len(row) - i` for the first non-`None` cell from the end, i.e. the length
after trailing `None`s are dropped, and an all-`None` row contributes 0. -/
def rowEffLen (row : List (Option (List Char))) : Nat :=
  (row.reverse.dropWhile (fun c => c = Option.none)).length

/-- The `max_cols` fold over all kept rows. -/
def maxColsOf (rows : List (List (Option (List Char)))) : Nat :=
  rows.foldl (fun m row => max m (rowEffLen row)) 0

/-- `cells = list(row[:max_cols])` then `while len(cells) < max_cols:
cells.append(None)`. -/
def padTo (n : Nat) (row : List (Option (List Char))) :
    List (Option (List Char)) :=
  row.take n ++ List.replicate (n - (row.take n).length) Option.none

/-- One data row of the sheet table: pad, clean every cell, join. -/
def sheetDataRow (maxCols : Nat) (row : List (Option (List Char))) :
    List Char :=
  mkRow ((padTo maxCols row).map clean_cell_value)

/-- The `table_rows` list of `convert_sheet_to_markdown` (lines 79-98): the
header separator is inserted right after row 0. -/
def sheetTableRows (maxCols : Nat) (rows : List (List (Option (List Char)))) :
    List (List Char) :=
  match rows with
  | [] => []
  | r0 :: rest =>
    sheetDataRow maxCols r0 :: sepRow maxCols :: rest.map (sheetDataRow maxCols)

/-- The `*Empty sheet*` marker. -/
def emptySheetMarker : List Char := "*Empty sheet*".toList

/-- The `md_parts` list of `convert_sheet_to_markdown`
(xlsx_to_markdown.py, lines 46-102), before the final `"\n\n".join`. -/
def convert_sheet_md_parts (rows : List (List (Option (List Char))))
    (sheetName : List Char) : List (List Char) :=
  let header := '#' :: '#' :: ' ' :: sheetName
  if rows = [] then [header, emptySheetMarker]
  else
    let kept := rows.filter (fun row => row.any (fun c => c ≠ Option.none))
    if kept = [] then [header, emptySheetMarker]
    else
      let maxCols := maxColsOf kept
      if maxCols = 0 then [header, emptySheetMarker]
      else [header, joinLines (sheetTableRows maxCols kept)]

/-- Python `"\n\n".join(parts)`. -/
def joinBlocks : List (List Char) → List Char
  | [] => []
  | [b] => b
  | b :: bs => b ++ '\n' :: '\n' :: joinBlocks bs

/-- `convert_sheet_to_markdown`: the joined Markdown string. -/
def convert_sheet_to_markdown (rows : List (List (Option (List Char))))
    (sheetName : List Char) : List Char :=
  joinBlocks (convert_sheet_md_parts rows sheetName)

/-- One cell of a PowerPoint table row:
`cell.text.strip().replace("|", "\\|")` (pptx_to_markdown.py, line 51). -/
def pptxCleanCell (cellText : List Char) : List Char :=
  pyEscapePipes (pyStrip cellText)

/-- `convert_table_to_markdown` (pptx_to_markdown.py, lines 46-59): the
`rows` list of strings; the separator after row 0 uses that row's cell
count. A table is a list of rows, each row a list of cell texts. -/
def pptxTableRows (table : List (List (List Char))) : List (List Char) :=
  match table with
  | [] => []
  | r0 :: rest =>
    mkRow (r0.map pptxCleanCell) :: sepRow r0.length ::
      rest.map (fun r => mkRow (r.map pptxCleanCell))

/-- `convert_table_to_markdown`: the joined string (`"\n".join(rows)`). -/
def convert_table_to_markdown (table : List (List (List Char))) : List Char :=
  joinLines (pptxTableRows table)

/-- A PowerPoint shape as `extract_text_from_shape` reads it:
`text = Option.some t` models `hasattr(shape, "text")` with `shape.text = t`
(`Option.none` models a shape without the attribute, e.g. a graphic frame);
`table = Option.some g` models `shape.has_table` with `shape.table = g`. -/
structure Shape where
  text : Option (List Char)
  table : Option (List (List (List Char)))

/-- `extract_text_from_shape` (pptx_to_markdown.py, lines 31-43): the text
part is appended first (when the attribute exists and strips non-empty),
then the table part (when `has_table`); the parts are joined with `"\n"`. -/
def extract_text_from_shape (shape : Shape) : List Char :=
  let text_parts : List (List Char) :=
    (match shape.text with
     | Option.some t => if pyStrip t ≠ [] then [pyStrip t] else []
     | Option.none => []) ++
    (match shape.table with
     | Option.some tbl => [convert_table_to_markdown tbl]
     | Option.none => [])
  joinLines text_parts

/-- A slide as `convert_slide_to_markdown` reads it: `title` is the text of
`slide.shapes.title` when that placeholder exists, `shapes` are the
remaining shapes in source order (the code skips the title shape by
identity inside its loop), `notes` is the notes frame's text when
`slide.has_notes_slide` and the frame exists. -/
structure Slide where
  title : Option (List Char)
  shapes : List Shape
  notes : Option (List Char)

/-- `convert_slide_to_markdown` (pptx_to_markdown.py, lines 62-96): the
`md_parts` list, before the final `"\n\n".join`. The `## Slide n` header is
emitted unconditionally. -/
def convert_slide_md_parts (slide : Slide) (slide_number : Nat) :
    List (List Char) :=
  let header := "## Slide ".toList ++ (Nat.repr slide_number).toList
  let titleParts : List (List Char) :=
    match slide.title with
    | Option.some t =>
      if pyStrip t ≠ [] then ["### ".toList ++ pyStrip t] else []
    | Option.none => []
  let content_parts :=
    (slide.shapes.map extract_text_from_shape).filter (fun t => t ≠ [])
  let contentParts : List (List Char) :=
    if content_parts ≠ [] then [joinLines content_parts] else []
  let notesParts : List (List Char) :=
    match slide.notes with
    | Option.some t =>
      if pyStrip t ≠ [] then
        ["\n**Speaker Notes:**".toList, '_' :: (pyStrip t ++ ['_'])]
      else []
    | Option.none => []
  header :: (titleParts ++ contentParts ++ notesParts)

/-- `convert_slide_to_markdown`: the joined string. -/
def convert_slide_to_markdown (slide : Slide) (slide_number : Nat) :
    List Char :=
  joinBlocks (convert_slide_md_parts slide slide_number)

/-- The slide loop of `convert_pptx_to_markdown` (pptx_to_markdown.py,
lines 137-140): each slide's Markdown followed by a `---` rule, slides
numbered from 1. -/
def pptx_slide_parts (slides : List Slide) : List (List Char) :=
  (List.range slides.length).zip slides |>.flatMap
    (fun p => [convert_slide_to_markdown p.2 (p.1 + 1), "---".toList])

/-- The page loop of `convert_pdf_to_markdown` (pdf_ocr_to_markdown.py,
lines 157-176): the parts appended for the pages.  Each page carries the
inputs of `extract_text_from_page`; the `## Page n` header and the trailing
`---` are emitted only when `total_pages > 1`, and a page whose extracted
text is empty contributes nothing. -/
def pdf_unit_blocks
    (pages : List (List Char × Bool × Except (List Char) (List Char))) :
    List (List Char) :=
  let total_pages := pages.length
  (List.range pages.length).zip pages |>.flatMap fun p =>
    let page_num := p.1 + 1
    let text := (extract_text_from_page p.2.1 p.2.2.1 p.2.2.2).1
    if text ≠ [] then
      (if total_pages > 1 then
        ["## Page ".toList ++ (Nat.repr page_num).toList] else []) ++
      [clean_text_for_markdown text] ++
      (if total_pages > 1 then ["---".toList] else [])
    else []

/-- `batch_convert` (pdf_ocr_to_markdown.py, lines 190-213, and the
identically structured one in pptx_to_markdown.py, lines 150-172): each
enumerated file is a pair of its name and its conversion outcome
(`Except.error` when `convert_*_to_markdown` raises, which the loop's
`try/except` swallows after printing).  The returned `converted` list
holds only the successful output paths, in enumeration order. -/
def batch_convert (files : List (List Char × Except (List Char) (List Char))) :
    List (List Char) :=
  match files with
  | [] => []
  | f :: fs =>
    match f.2 with
    | Except.ok outputPath => outputPath :: batch_convert fs
    | Except.error _ => batch_convert fs

/-- Running count of pipes not preceded by a backslash; the `Bool` state
records whether the previous character was a backslash. -/
def countUnescAux : Bool → List Char → Nat
  | _, [] => 0
  | prevBS, c :: cs =>
    (if c = '|' && !prevBS then 1 else 0) + countUnescAux (c = '\\') cs

/-- Column-delimiting pipe count of a row: pipes not escaped by a
preceding backslash. -/
def countUnescPipes (s : List Char) : Nat := countUnescAux false s

/-- Backslash state after scanning a list, starting from `b`. -/
def bsState (b : Bool) : List Char → Bool
  | [] => b
  | c :: cs => bsState (c = '\\') cs

/-- The 49-character page of the C2 counterexample. -/
def c2page : List Char := List.replicate 49 'a'

/-- No whitespace at either edge of a string. -/
def noEdgeWS (l : List Char) : Prop :=
  (∀ c, l.head? = Option.some c → isWS c = false) ∧
  (∀ c, l.getLast? = Option.some c → isWS c = false)

/-- At most two consecutive blank lines, starting mid-run of `b` blanks. -/
def noLongBlanks : Nat → List (List Char) → Bool
  | _, [] => true
  | b, l :: ls =>
    if l = [] then decide (b + 1 ≤ 2) && noLongBlanks (b + 1) ls
    else noLongBlanks 0 ls

/-! ## Basic facts about the page extractor -/

/-- C10: the pair returned by `extract_text_from_page` satisfies
`tag = none ↔ text = ""`. -/
theorem C10_tag_none_iff_text_empty (raw : List Char) (b : Bool)
    (o : Except (List Char) (List Char)) :
    ((extract_text_from_page raw b o).2 = Tag.none) ↔
      ((extract_text_from_page raw b o).1 = []) := by
  unfold extract_text_from_page
  by_cases h50 : (pyStrip raw).length > 50
  · simp only [h50, if_true]
    constructor
    · intro h; exact absurd h (by simp)
    · intro h; rw [h] at h50; simp at h50
  · simp only [h50, if_false]
    cases o with
    | error e => by_cases hempty : pyStrip raw = [] <;> cases b <;> simp [hempty]
    | ok r =>
      by_cases hempty : pyStrip raw = [] <;>
        by_cases hocr : pyStrip r = [] <;>
          cases b <;> simp [hempty, hocr]

/-- C1 counterexample: a fault in the direct-text call (`page.get_text`,
outside the `try:` block) propagates out of `extract_text_from_page`
instead of surfacing as an empty result tagged `none`. -/
theorem C1_counterexample :
    extract_text_from_pageE (Except.error "get_text fault".toList) true
        (Except.ok []) = Except.error "get_text fault".toList := rfl

/-- C1 (amended): only the recognition step is guarded — when the direct
text call succeeds the extractor returns normally whatever the OCR outcome,
and an OCR fault yields the direct-text fallback (tagged `none` only when
that text is empty); a fault in the direct-text call propagates. -/
theorem C1_amended_fault_containment (raw e : List Char) (b : Bool)
    (o : Except (List Char) (List Char)) :
    extract_text_from_pageE (Except.ok raw) b o =
        Except.ok (extract_text_from_page raw b o) ∧
      extract_text_from_page raw true (Except.error e) =
        (pyStrip raw, if pyStrip raw = [] then Tag.none else Tag.text) ∧
      extract_text_from_pageE (Except.error e) b o = Except.error e := by
  refine ⟨rfl, ?_, rfl⟩
  unfold extract_text_from_page
  by_cases h50 : (pyStrip raw).length > 50
  · have hne : pyStrip raw ≠ [] := by
      intro h; rw [h] at h50; simp at h50
    simp [h50, hne]
  · simp [h50]

/-- C2 counterexample: a page whose trimmed direct text has length 49, with
recognition unavailable, is tagged `text` (the `direct` tag) with that text
returned — not `none` as the claim states. -/
theorem C2_counterexample :
    (pyStrip c2page).length = 49 ∧
      extract_text_from_page c2page false (Except.ok []) = (c2page, Tag.text) ∧
      (extract_text_from_page c2page false (Except.ok [])).2 ≠ Tag.none := by
  refine ⟨by decide, by decide, by decide⟩

/-- C2 (amended): with recognition unavailable, any page whose trimmed
direct text is non-empty (lengths 49 and 50 included) is tagged `text` with
that text returned; a page whose trimmed text exceeds 50 characters is
tagged `text` regardless of recognition; the `none` tag arises exactly for
an empty trimmed text with nothing recognized. -/
theorem C2_amended_threshold (raw bigRaw : List Char) (b : Bool)
    (o : Except (List Char) (List Char))
    (hle : (pyStrip raw).length ≤ 50) (hpos : 0 < (pyStrip raw).length)
    (hbig : 50 < (pyStrip bigRaw).length) :
    extract_text_from_page raw false o = (pyStrip raw, Tag.text) ∧
      extract_text_from_page bigRaw b o = (pyStrip bigRaw, Tag.text) ∧
      extract_text_from_page [] false o = ([], Tag.none) := by
  refine ⟨?_, ?_, rfl⟩
  · have h50 : ¬ (pyStrip raw).length > 50 := by omega
    have hne : pyStrip raw ≠ [] := by
      intro h; rw [h] at hpos; simp at hpos
    unfold extract_text_from_page
    simp [h50, hne]
  · unfold extract_text_from_page
    simp [hbig]

/-- Witness for `C2_amended_threshold` at pages of 50 and 51 characters. -/
theorem C2_amended_threshold_witness :
    extract_text_from_page (List.replicate 50 'a') false (Except.ok []) =
        (pyStrip (List.replicate 50 'a'), Tag.text) ∧
      extract_text_from_page (List.replicate 51 'a') true (Except.ok []) =
        (pyStrip (List.replicate 51 'a'), Tag.text) ∧
      extract_text_from_page [] false (Except.ok []) = ([], Tag.none) :=
  C2_amended_threshold (List.replicate 50 'a') (List.replicate 51 'a') true
    (Except.ok []) (by decide) (by decide) (by decide)

/-- C6 counterexample: over one valid and one corrupt file, `batch_convert`
returns a single-element list holding only the successful output path — no
failure outcome is part of the return value. -/
theorem C6_counterexample :
    batch_convert [("a.pdf".toList, Except.ok "a.md".toList),
        ("b.pdf".toList, Except.error "corrupt".toList)] = ["a.md".toList] ∧
      (batch_convert [("a.pdf".toList, Except.ok "a.md".toList),
        ("b.pdf".toList, Except.error "corrupt".toList)]).length = 1 :=
  ⟨rfl, rfl⟩

/-- C6 (amended): `batch_convert` never raises (it is total), processes
files in the order the directory enumeration supplies them, and returns
exactly the successful output paths in that order; per-file failures are
swallowed by the loop's `try/except` and do not appear in the returned
list.  In particular one valid and one corrupt file, in either order, give
a one-element list. -/
theorem C6_amended_batch (fs : List (List Char × Except (List Char) (List Char)))
    (n1 n2 o e : List Char) :
    batch_convert fs = fs.filterMap (fun f => f.2.toOption) ∧
      batch_convert [(n1, Except.ok o), (n2, Except.error e)] = [o] ∧
      batch_convert [(n1, Except.error e), (n2, Except.ok o)] = [o] := by
  refine ⟨?_, rfl, rfl⟩
  induction fs with
  | nil => rfl
  | cons f fs ih =>
    cases f with
    | mk n r => cases r <;> simp [batch_convert, ih, Except.toOption]

/-- C9 counterexample: a shape exposing both a non-empty text and a table
contributes both blocks, text first — not one of the two with the table
taking priority. -/
theorem C9_counterexample :
    extract_text_from_shape
        ⟨Option.some "hello".toList, Option.some [[['x']]]⟩ =
      "hello\n| x |\n| --- |".toList := by decide

/-- C9 (amended): `extract_text_from_shape` appends the shape's non-empty
trimmed text (when the text attribute exists) and then its assembled table
(when it exposes one); a shape exposing both contributes both, text first. -/
theorem C9_amended_shape (t : List Char) (g : List (List (List Char)))
    (hne : pyStrip t ≠ []) :
    extract_text_from_shape ⟨Option.some t, Option.some g⟩ =
        pyStrip t ++ '\n' :: convert_table_to_markdown g ∧
      extract_text_from_shape ⟨Option.some t, Option.none⟩ = pyStrip t ∧
      extract_text_from_shape ⟨Option.none, Option.some g⟩ =
        convert_table_to_markdown g := by
  refine ⟨?_, ?_, ?_⟩ <;>
    simp [extract_text_from_shape, hne, joinLines, joinSep]

/-- Witness for `C9_amended_shape` at a concrete text and table. -/
theorem C9_amended_shape_witness :
    extract_text_from_shape
        ⟨Option.some "hello".toList, Option.some [[['x']]]⟩ =
        pyStrip "hello".toList ++ '\n' ::
          convert_table_to_markdown [[['x']]] ∧
      extract_text_from_shape ⟨Option.some "hello".toList, Option.none⟩ =
        pyStrip "hello".toList ∧
      extract_text_from_shape ⟨Option.none, Option.some [[['x']]]⟩ =
        convert_table_to_markdown [[['x']]] :=
  C9_amended_shape "hello".toList [[['x']]] (by decide)

/-- C5 counterexample: a 1x1 grid holding a blank string (not `None`) is
not treated as empty — the sheet converter emits a table of empty cells
instead of the `*Empty sheet*` marker. -/
theorem C5_counterexample :
    convert_sheet_md_parts [[Option.some []]] ['S'] =
        [['#', '#', ' ', 'S'], "|  |\n| --- |".toList] ∧
      emptySheetMarker ∉ convert_sheet_md_parts [[Option.some []]] ['S'] := by
  refine ⟨by decide, by decide⟩

/-- C5 (amended): rows are dropped only when every cell is `None`, and a
grid whose every cell is `None` (or with no rows at all) yields the
`*Empty sheet*` marker; blank-string cells count as content, so an
all-blank-string grid yields a table of empty cells instead. -/
theorem C5_amended_empty_grid (rows : List (List (Option (List Char))))
    (nm : List Char)
    (hall : ∀ row ∈ rows, ∀ c ∈ row, c = Option.none) :
    convert_sheet_md_parts rows nm =
        [('#' :: '#' :: ' ' :: nm), emptySheetMarker] ∧
      convert_sheet_md_parts [[Option.some []]] nm =
        [('#' :: '#' :: ' ' :: nm), "|  |\n| --- |".toList] := by
  constructor
  · unfold convert_sheet_md_parts
    by_cases h : rows = []
    · simp [h]
    · have hk0 : rows.filter (fun row => row.any (fun c => c ≠ Option.none)) = [] := by
        rw [List.filter_eq_nil_iff]
        intro row hrow
        simp only [List.any_eq_true, not_exists]
        intro c
        rintro ⟨hc, hp⟩
        simp [hall row hrow c hc] at hp
      simp [h, hk0]
      intro x hx x1 hx1 hne
      exact absurd (hall x hx x1 hx1) hne
  · rfl

/-- Witness for `C5_amended_empty_grid` at an all-`None` grid. -/
theorem C5_amended_empty_grid_witness :
    convert_sheet_md_parts [[Option.none]] ['S'] =
        [('#' :: '#' :: ' ' :: ['S']), emptySheetMarker] ∧
      convert_sheet_md_parts [[Option.some []]] ['S'] =
        [('#' :: '#' :: ' ' :: ['S']), "|  |\n| --- |".toList] :=
  C5_amended_empty_grid [[Option.none]] ['S'] (by decide)

/-- C4 counterexample: a one-slide presentation still emits the per-unit
level-2 heading `## Slide 1`. -/
theorem C4_counterexample :
    pptx_slide_parts [⟨Option.none, [], Option.none⟩] =
      ["## Slide 1".toList, "---".toList] := by decide

/-- C4 (amended): the pdf converter omits per-page headings for a one-page
document and emits `## Page 1`, `## Page 2` blocks in order for a two-page
document with non-empty pages; the pptx and xlsx converters emit their
per-unit level-2 heading (`## Slide n`, `## <sheet name>`) as the first
part of every unit, whatever the unit count. -/
theorem C4_amended_unit_headings
    (p q : List Char × Bool × Except (List Char) (List Char))
    (slide : Slide) (n : Nat) (rows : List (List (Option (List Char))))
    (nm : List Char)
    (h1 : (extract_text_from_page p.1 p.2.1 p.2.2).1 ≠ [])
    (h2 : (extract_text_from_page q.1 q.2.1 q.2.2).1 ≠ []) :
    pdf_unit_blocks [p] =
        [clean_text_for_markdown (extract_text_from_page p.1 p.2.1 p.2.2).1] ∧
      pdf_unit_blocks [p, q] =
        ["## Page 1".toList,
          clean_text_for_markdown (extract_text_from_page p.1 p.2.1 p.2.2).1,
          "---".toList,
          "## Page 2".toList,
          clean_text_for_markdown (extract_text_from_page q.1 q.2.1 q.2.2).1,
          "---".toList] ∧
      (convert_slide_md_parts slide n).head? =
        Option.some ("## Slide ".toList ++ (Nat.repr n).toList) ∧
      (convert_sheet_md_parts rows nm).head? =
        Option.some ('#' :: '#' :: ' ' :: nm) := by
  refine ⟨?_, ?_, ?_, ?_⟩
  · have r1 : List.range 1 = [0] := rfl
    simp [pdf_unit_blocks, h1, r1]
  · have e1 : (Nat.repr 1).data = ['1'] := by decide
    have e2 : (Nat.repr 2).data = ['2'] := by decide
    simp [pdf_unit_blocks, h1, h2, List.range_succ, e1, e2]
  · simp [convert_slide_md_parts]
  · unfold convert_sheet_md_parts
    by_cases h0 : rows = []
    · simp [h0]
    · simp only [h0, if_false]
      split <;> simp
      split <;> simp

/-! ## Pipe-counting lemmas for the table assemblers -/

theorem countUnescAux_append (b : Bool) (xs ys : List Char) :
    countUnescAux b (xs ++ ys) =
      countUnescAux b xs + countUnescAux (bsState b xs) ys := by
  induction xs generalizing b with
  | nil => simp [countUnescAux, bsState]
  | cons c cs ih => simp [countUnescAux, bsState, ih, Nat.add_assoc]

theorem countUnescAux_escape (b : Bool) (s : List Char) :
    countUnescAux b (pyEscapePipes s) = 0 := by
  induction s generalizing b with
  | nil => rfl
  | cons c cs ih =>
    by_cases hc : c = '|'
    · simp [pyEscapePipes, hc, countUnescAux, ih]
    · simp [pyEscapePipes, hc, countUnescAux, ih]

theorem countUnescAux_escape_nl (b : Bool) (s : List Char) :
    countUnescAux b (pyReplaceNl (pyEscapePipes s)) = 0 := by
  induction s generalizing b with
  | nil => rfl
  | cons c cs ih =>
    by_cases hc : c = '|'
    · simp [pyEscapePipes, hc, pyReplaceNl, countUnescAux, ih]
    · by_cases hn : c = '\n'
      · simp [pyEscapePipes, hc, hn, pyReplaceNl, countUnescAux, ih]
      · simp [pyEscapePipes, hc, hn, pyReplaceNl, countUnescAux, ih]

/-- Every pipe in a cleaned worksheet cell is escaped. -/
theorem countUnescAux_clean_cell (b : Bool) (v : Option (List Char)) :
    countUnescAux b (clean_cell_value v) = 0 := by
  cases v with
  | none => rfl
  | some s => exact countUnescAux_escape_nl b (pyStrip s)

/-- Every pipe in a cleaned slide-table cell is escaped. -/
theorem countUnescAux_pptx_cell (b : Bool) (s : List Char) :
    countUnescAux b (pptxCleanCell s) = 0 :=
  countUnescAux_escape b (pyStrip s)

/-- A cleaned worksheet cell contains no newline. -/
theorem no_nl_replaceNl (t : List Char) : '\n' ∉ pyReplaceNl t := by
  induction t with
  | nil => simp [pyReplaceNl]
  | cons c cs ih =>
    by_cases hn : c = '\n'
    · simp [pyReplaceNl, hn, ih]
    · simp [pyReplaceNl, hn, ih]
      exact fun h => hn h.symm

theorem no_nl_clean_cell (v : Option (List Char)) :
    '\n' ∉ clean_cell_value v := by
  cases v with
  | none => simp [clean_cell_value]
  | some s => exact no_nl_replaceNl (pyEscapePipes (pyStrip s))

/-- `pyEscapePipes` keeps every character of its input. -/
theorem mem_escape_of_mem {c : Char} {s : List Char} (h : c ∈ s) :
    c ∈ pyEscapePipes s := by
  induction s with
  | nil => simp at h
  | cons d ds ih =>
    rcases List.mem_cons.mp h with rfl | hm
    · by_cases hd : c = '|' <;> simp [pyEscapePipes, hd]
    · by_cases hd : d = '|' <;> simp [pyEscapePipes, hd, ih hm]

/-- Joined cells followed by the closing `" |"`: one unescaped pipe per
cell boundary plus the closing one. -/
theorem countUnescAux_joinCells (cells : List (List Char))
    (hcells : ∀ c ∈ cells, ∀ b, countUnescAux b c = 0) (hne : cells ≠ []) :
    countUnescAux false (joinCells cells ++ [' ', '|']) = cells.length := by
  induction cells with
  | nil => exact absurd rfl hne
  | cons c cs ih =>
    cases cs with
    | nil =>
      have h0 : ∀ b, countUnescAux b c = 0 := hcells c (by simp)
      simp [joinCells, countUnescAux_append, h0, countUnescAux, bsState]
    | cons d ds =>
      have h0 : ∀ b, countUnescAux b c = 0 := hcells c (by simp)
      have hrest : ∀ x ∈ d :: ds, ∀ b, countUnescAux b x = 0 := by
        intro x hx b; exact hcells x (List.mem_cons_of_mem _ hx) b
      have := ih hrest (by simp)
      simp only [joinCells, List.append_assoc, List.cons_append,
        countUnescAux_append, h0]
      simp [countUnescAux, this, Nat.add_comm]

theorem countUnescPipes_mkRow (cells : List (List Char))
    (hcells : ∀ c ∈ cells, ∀ b, countUnescAux b c = 0) (hne : cells ≠ []) :
    countUnescPipes (mkRow cells) = cells.length + 1 := by
  simp [countUnescPipes, mkRow, countUnescAux,
    countUnescAux_joinCells cells hcells hne, Nat.add_comm]

theorem countUnescAux_dash (b : Bool) : countUnescAux b dashCell = 0 := by
  cases b <;> rfl

theorem sepRow_pipes (n : Nat) (hn : 0 < n) :
    countUnescPipes (sepRow n) = n + 1 := by
  have := countUnescPipes_mkRow (List.replicate n dashCell)
    (fun c hc b => by rw [List.eq_of_mem_replicate hc]; exact countUnescAux_dash b)
    (by simp [List.replicate_eq_nil_iff]; omega)
  simpa [sepRow] using this

theorem padTo_length (n : Nat) (row : List (Option (List Char))) :
    (padTo n row).length = n := by
  simp [padTo]

theorem sheetDataRow_pipes (mc : Nat) (row : List (Option (List Char)))
    (hmc : 0 < mc) : countUnescPipes (sheetDataRow mc row) = mc + 1 := by
  have hlen : ((padTo mc row).map clean_cell_value).length = mc := by
    simp [padTo_length]
  have := countUnescPipes_mkRow ((padTo mc row).map clean_cell_value)
    (by
      intro c hc b
      rcases List.mem_map.mp hc with ⟨v, _, rfl⟩
      exact countUnescAux_clean_cell b v)
    (by
      intro h
      rw [h] at hlen
      simp at hlen
      exact absurd hlen.symm (Nat.ne_of_gt hmc))
  rw [sheetDataRow, this, hlen]

theorem pptxRow_pipes (row : List (List Char)) (hne : row ≠ []) :
    countUnescPipes (mkRow (row.map pptxCleanCell)) = row.length + 1 := by
  have := countUnescPipes_mkRow (row.map pptxCleanCell)
    (by
      intro c hc b
      rcases List.mem_map.mp hc with ⟨s, _, rfl⟩
      exact countUnescAux_pptx_cell b s)
    (by simpa using hne)
  simpa using this

/-- Every row the sheet assembler emits for a kept grid with positive
`max_cols` has `max_cols + 1` unescaped pipes. -/
theorem sheetTableRows_pipes (kept : List (List (Option (List Char))))
    (hmc : 0 < maxColsOf kept) :
    ∀ r ∈ sheetTableRows (maxColsOf kept) kept,
      countUnescPipes r = maxColsOf kept + 1 := by
  intro r hr
  cases kept with
  | nil => simp [sheetTableRows] at hr
  | cons r0 rest =>
    simp only [sheetTableRows, List.mem_cons] at hr
    rcases hr with rfl | rfl | hr
    · exact sheetDataRow_pipes _ r0 hmc
    · exact sepRow_pipes _ hmc
    · rcases List.mem_map.mp hr with ⟨row, _, rfl⟩
      exact sheetDataRow_pipes _ row hmc

/-- C8: every emitted row of the assembled Markdown table — header row,
separator row, and each data row — carries exactly `cols + 1`
column-delimiting pipes (pipes escaped by a backslash inside cell text not
counted), for the worksheet assembler (with `cols` the computed
`max_cols`) and for the slide-table assembler (with `cols` the table's
rectangular cell count per row). -/
theorem C8_table_pipe_counts (rows : List (List (Option (List Char))))
    (g : List (List (List Char))) (cols : Nat)
    (hmc : 0 < maxColsOf
      (rows.filter (fun row => row.any (fun c => c ≠ Option.none))))
    (hrect : ∀ row ∈ g, row.length = cols) (hcols : 0 < cols) :
    (∀ r ∈ sheetTableRows
        (maxColsOf (rows.filter (fun row => row.any (fun c => c ≠ Option.none))))
        (rows.filter (fun row => row.any (fun c => c ≠ Option.none))),
      countUnescPipes r =
        maxColsOf
          (rows.filter (fun row => row.any (fun c => c ≠ Option.none))) + 1) ∧
      (∀ r ∈ pptxTableRows g, countUnescPipes r = cols + 1) := by
  constructor
  · exact sheetTableRows_pipes _ hmc
  · intro r hr
    cases g with
    | nil => simp [pptxTableRows] at hr
    | cons r0 rest =>
      have h0 : r0.length = cols := hrect r0 (by simp)
      simp only [pptxTableRows, List.mem_cons] at hr
      rcases hr with rfl | rfl | hr
      · rw [pptxRow_pipes r0 (by
          intro h; rw [h] at h0; simp at h0; omega), h0]
      · rw [h0]; exact sepRow_pipes cols hcols
      · rcases List.mem_map.mp hr with ⟨row, hrow, rfl⟩
        have hl : row.length = cols := hrect row (List.mem_cons_of_mem _ hrow)
        rw [pptxRow_pipes row (by
          intro h; rw [h] at hl; simp at hl; omega), hl]

/-- Witness for `C8_table_pipe_counts` at a one-cell worksheet grid and a
one-cell slide table. -/
theorem C8_table_pipe_counts_witness :
    (∀ r ∈ sheetTableRows
        (maxColsOf ([[Option.some ['a']]].filter
          (fun row => row.any (fun c => c ≠ Option.none))))
        ([[Option.some ['a']]].filter
          (fun row => row.any (fun c => c ≠ Option.none))),
      countUnescPipes r =
        maxColsOf ([[Option.some ['a']]].filter
          (fun row => row.any (fun c => c ≠ Option.none))) + 1) ∧
      (∀ r ∈ pptxTableRows [[['x']]], countUnescPipes r = 1 + 1) :=
  C8_table_pipe_counts [[Option.some ['a']]] [[['x']]] 1
    (by decide) (by decide) (by decide)

/-- C3 counterexample: a slide-table cell keeps its embedded line break
(`convert_table_to_markdown` only escapes pipes), so a one-row table with a
multi-line cell spans three output lines — the row is broken. -/
theorem C3_counterexample :
    '\n' ∈ pptxCleanCell "a\nb".toList ∧
      (splitLines (convert_table_to_markdown [["a\nb".toList]])).length = 3 := by
  refine ⟨by decide, by decide⟩

/-- C3 (amended): worksheet cells (`clean_cell_value`) get every pipe
escaped and every embedded line break replaced by the inline `<br>` marker;
slide-table cells get every pipe escaped but keep their line breaks, so a
multi-line slide-table cell does break its table row. -/
theorem C3_amended_cell_escaping (v : Option (List Char)) (s : List Char)
    (b : Bool) (hnl : '\n' ∈ pyStrip s) :
    countUnescAux b (clean_cell_value v) = 0 ∧
      '\n' ∉ clean_cell_value v ∧
      countUnescAux b (pptxCleanCell s) = 0 ∧
      '\n' ∈ pptxCleanCell s :=
  ⟨countUnescAux_clean_cell b v, no_nl_clean_cell v,
    countUnescAux_pptx_cell b s, mem_escape_of_mem hnl⟩

/-- Witness for `C3_amended_cell_escaping` at a cell holding a pipe and a
line break. -/
theorem C3_amended_cell_escaping_witness :
    countUnescAux true (clean_cell_value (Option.some "a|\nb".toList)) = 0 ∧
      '\n' ∉ clean_cell_value (Option.some "a|\nb".toList) ∧
      countUnescAux true (pptxCleanCell "a\nb".toList) = 0 ∧
      '\n' ∈ pptxCleanCell "a\nb".toList :=
  C3_amended_cell_escaping (Option.some "a|\nb".toList) "a\nb".toList true
    (by decide)

/-- Witness for `C4_amended_unit_headings` at concrete pages, a concrete
slide and a concrete sheet. -/
theorem C4_amended_unit_headings_witness :
    pdf_unit_blocks [("hello page".toList, false, Except.ok [])] =
        [clean_text_for_markdown
          (extract_text_from_page "hello page".toList false (Except.ok [])).1] ∧
      pdf_unit_blocks [("hello page".toList, false, Except.ok []),
          ("second".toList, false, Except.ok [])] =
        ["## Page 1".toList,
          clean_text_for_markdown
            (extract_text_from_page "hello page".toList false (Except.ok [])).1,
          "---".toList,
          "## Page 2".toList,
          clean_text_for_markdown
            (extract_text_from_page "second".toList false (Except.ok [])).1,
          "---".toList] ∧
      (convert_slide_md_parts ⟨Option.none, [], Option.none⟩ 1).head? =
        Option.some ("## Slide ".toList ++ (Nat.repr 1).toList) ∧
      (convert_sheet_md_parts [] ['S']).head? =
        Option.some ('#' :: '#' :: ' ' :: ['S']) :=
  C4_amended_unit_headings ("hello page".toList, false, Except.ok [])
    ("second".toList, false, Except.ok []) ⟨Option.none, [], Option.none⟩ 1
    [] ['S'] (by decide) (by decide)

/-! ## Idempotence of the text normalizer -/

theorem splitLines_ne_nil (l : List Char) : splitLines l ≠ [] := by
  induction l with
  | nil => simp [splitLines]
  | cons c cs ih =>
    by_cases h : c = '\n'
    · simp [splitLines, h]
    · simp only [splitLines, h, if_false]
      cases hs : splitLines cs with
      | nil => simp
      | cons m ms => simp

theorem splitLines_no_nl {l : List Char} (h : '\n' ∉ l) :
    splitLines l = [l] := by
  induction l with
  | nil => rfl
  | cons c cs ih =>
    have hc : ¬ c = '\n' := fun e => h (by simp [e])
    have hcs : '\n' ∉ cs := fun m => h (List.mem_cons_of_mem _ m)
    simp only [splitLines, hc, if_false, ih hcs]

theorem splitLines_append_nl {l : List Char} (rest : List Char)
    (h : '\n' ∉ l) :
    splitLines (l ++ '\n' :: rest) = l :: splitLines rest := by
  induction l with
  | nil => simp [splitLines]
  | cons c cs ih =>
    have hc : ¬ c = '\n' := fun e => h (by simp [e])
    have hcs : '\n' ∉ cs := fun m => h (List.mem_cons_of_mem _ m)
    simp only [List.cons_append, List.append_eq, splitLines, hc, if_false,
      ih hcs]

theorem splitLines_joinLines (ls : List (List Char)) (hne : ls ≠ [])
    (hnl : ∀ l ∈ ls, '\n' ∉ l) : splitLines (joinLines ls) = ls := by
  induction ls with
  | nil => exact absurd rfl hne
  | cons l ls ih =>
    cases ls with
    | nil => exact splitLines_no_nl (hnl l (by simp))
    | cons m ms =>
      have h1 : '\n' ∉ l := hnl l (by simp)
      have hj : joinLines (l :: m :: ms) = l ++ '\n' :: joinLines (m :: ms) :=
        rfl
      rw [hj, splitLines_append_nl _ h1,
        ih (by simp) (fun x hx => hnl x (List.mem_cons_of_mem _ hx))]

theorem pyWordsAux_good (l : List Char) :
    ∀ acc : List Char, (∀ c ∈ acc, isWS c = false) →
      ∀ w ∈ pyWordsAux l acc, w ≠ [] ∧ ∀ c ∈ w, isWS c = false := by
  induction l with
  | nil =>
    intro acc hacc w hw
    by_cases h : acc = []
    · simp [pyWordsAux, h] at hw
    · simp only [pyWordsAux, h, if_false, List.mem_singleton] at hw
      subst hw
      exact ⟨by simpa using h, fun c hc => hacc c (List.mem_reverse.mp hc)⟩
  | cons c cs ih =>
    intro acc hacc w hw
    by_cases hws : isWS c = true
    · simp only [pyWordsAux, hws, if_true] at hw
      by_cases h : acc = []
      · rw [if_pos h] at hw
        exact ih [] (by simp) w hw
      · rw [if_neg h] at hw
        rcases List.mem_cons.mp hw with rfl | hw2
        · exact ⟨by simpa using h, fun d hd => hacc d (List.mem_reverse.mp hd)⟩
        · exact ih [] (by simp) w hw2
    · have hc : isWS c = false := by simpa using hws
      simp only [pyWordsAux, hc, Bool.false_eq_true, if_false] at hw
      refine ih (c :: acc) ?_ w hw
      intro d hd
      rcases List.mem_cons.mp hd with rfl | hd2
      · exact hc
      · exact hacc d hd2

theorem pyWords_good (l : List Char) :
    ∀ w ∈ pyWords l, w ≠ [] ∧ ∀ c ∈ w, isWS c = false :=
  pyWordsAux_good l [] (by simp)

theorem pyWordsAux_append_word (w : List Char) :
    ∀ (l acc : List Char), (∀ c ∈ w, isWS c = false) →
      pyWordsAux (w ++ l) acc = pyWordsAux l (w.reverse ++ acc) := by
  induction w with
  | nil => intro l acc _; simp
  | cons c cs ih =>
    intro l acc hw
    have hc : isWS c = false := hw c (by simp)
    simp only [List.cons_append, List.append_eq, pyWordsAux, hc,
      Bool.false_eq_true, if_false]
    rw [ih l (c :: acc) (fun d hd => hw d (List.mem_cons_of_mem _ hd))]
    simp

theorem pyWords_joinSep (ws : List (List Char))
    (hws : ∀ w ∈ ws, w ≠ [] ∧ ∀ c ∈ w, isWS c = false) :
    pyWords (joinSep ' ' ws) = ws := by
  induction ws with
  | nil => rfl
  | cons w ws ih =>
    have hw := hws w (by simp)
    cases ws with
    | nil =>
      show pyWordsAux (joinSep ' ' [w]) [] = [w]
      have h2 := pyWordsAux_append_word w [] [] hw.2
      rw [List.append_nil] at h2
      have hrev : w.reverse ≠ [] := by simpa using hw.1
      rw [show joinSep ' ' [w] = w from rfl, h2, List.append_nil]
      simp [pyWordsAux, hrev]
    | cons m ms =>
      have hrest : ∀ x ∈ m :: ms, x ≠ [] ∧ ∀ c ∈ x, isWS c = false :=
        fun x hx => hws x (List.mem_cons_of_mem _ hx)
      have h2 := pyWordsAux_append_word w (' ' :: joinSep ' ' (m :: ms)) []
        hw.2
      have hrev : w.reverse ≠ [] := by simpa using hw.1
      show pyWordsAux (joinSep ' ' (w :: m :: ms)) [] = w :: m :: ms
      rw [show joinSep ' ' (w :: m :: ms) = w ++ ' ' :: joinSep ' ' (m :: ms)
          from rfl,
        h2, List.append_nil]
      have hsp : isWS ' ' = true := rfl
      simp only [pyWordsAux, hsp, if_true, hrev, if_neg hrev,
        List.reverse_reverse]
      exact congrArg (w :: ·) (ih hrest)

theorem dropWhile_eq_self_of_head (l : List Char)
    (h : ∀ c, l.head? = Option.some c → isWS c = false) :
    l.dropWhile isWS = l := by
  cases l with
  | nil => rfl
  | cons c cs =>
    have hc := h c rfl
    simp [List.dropWhile_cons, hc]

theorem pyStrip_eq_self (l : List Char) (h : noEdgeWS l) : pyStrip l = l := by
  unfold pyStrip
  rw [dropWhile_eq_self_of_head l h.1,
    dropWhile_eq_self_of_head l.reverse
      (fun c hc => h.2 c (by rwa [List.head?_reverse] at hc)),
    List.reverse_reverse]

theorem joinSep_ne_nil (w : List Char) (ws : List (List Char))
    (hw : w ≠ []) : joinSep ' ' (w :: ws) ≠ [] := by
  cases ws with
  | nil => simpa [joinSep]
  | cons m ms => cases w with
    | nil => exact absurd rfl hw
    | cons c cs => simp [joinSep]

theorem joinSep_head (w : List Char) (ws : List (List Char)) (hw : w ≠ []) :
    (joinSep ' ' (w :: ws)).head? = w.head? := by
  cases ws with
  | nil => rfl
  | cons m ms => cases w with
    | nil => exact absurd rfl hw
    | cons c cs => rfl

theorem joinSep_getLast (ws : List (List Char))
    (hws : ∀ w ∈ ws, w ≠ [] ∧ ∀ c ∈ w, isWS c = false) :
    ∀ c, (joinSep ' ' ws).getLast? = Option.some c → isWS c = false := by
  induction ws with
  | nil => intro c hc; simp [joinSep] at hc
  | cons w ws ih =>
    intro c hc
    cases ws with
    | nil =>
      have hw := hws w (by simp)
      exact hw.2 c (List.mem_of_mem_getLast? (by simpa [joinSep] using hc))
    | cons m ms =>
      have hrest : ∀ x ∈ m :: ms, x ≠ [] ∧ ∀ c ∈ x, isWS c = false :=
        fun x hx => hws x (List.mem_cons_of_mem _ hx)
      have hm : m ≠ [] := (hws m (by simp)).1
      have hJ : joinSep ' ' (m :: ms) ≠ [] := joinSep_ne_nil m ms hm
      rw [show joinSep ' ' (w :: m :: ms) = w ++ ' ' :: joinSep ' ' (m :: ms)
            from rfl,
        List.getLast?_append_cons] at hc
      cases hJex : joinSep ' ' (m :: ms) with
      | nil => exact absurd hJex hJ
      | cons j js =>
        rw [hJex, List.getLast?_cons_cons] at hc
        refine ih hrest c ?_
        rw [hJex]
        exact hc

theorem joinSep_noEdgeWS (w : List Char) (ws : List (List Char))
    (hws : ∀ x ∈ w :: ws, x ≠ [] ∧ ∀ c ∈ x, isWS c = false) :
    noEdgeWS (joinSep ' ' (w :: ws)) := by
  have hw := hws w (by simp)
  constructor
  · intro c hc
    rw [joinSep_head w ws hw.1] at hc
    refine hw.2 c ?_
    cases w with
    | nil => simp at hc
    | cons d ds =>
      simp only [List.head?_cons, Option.some.injEq] at hc
      simp [← hc]
  · exact joinSep_getLast (w :: ws) hws

theorem mem_joinSep {c sep : Char} {ws : List (List Char)}
    (h : c ∈ joinSep sep ws) : c = sep ∨ ∃ w ∈ ws, c ∈ w := by
  induction ws with
  | nil => simp [joinSep] at h
  | cons w ws ih =>
    cases ws with
    | nil => exact Or.inr ⟨w, by simp, by simpa [joinSep] using h⟩
    | cons m ms =>
      rw [show joinSep sep (w :: m :: ms) = w ++ sep :: joinSep sep (m :: ms)
            from rfl] at h
      rcases List.mem_append.mp h with hw | hrest
      · exact Or.inr ⟨w, by simp, hw⟩
      · rcases List.mem_cons.mp hrest with rfl | hrest2
        · exact Or.inl rfl
        · rcases ih hrest2 with hsep | ⟨x, hx, hcx⟩
          · exact Or.inl hsep
          · exact Or.inr ⟨x, List.mem_cons_of_mem _ hx, hcx⟩

/-- `cleanLine` is idempotent. -/
theorem cleanLine_idem (l : List Char) :
    cleanLine (cleanLine l) = cleanLine l := by
  by_cases hs : pyStrip l = []
  · have h1 : cleanLine l = [] := by unfold cleanLine; rw [if_pos hs]
    rw [h1]
    rfl
  · have h1 : cleanLine l = joinSep ' ' (pyWords (pyStrip l)) := by
      unfold cleanLine; rw [if_neg hs]
    rw [h1]
    cases hws : pyWords (pyStrip l) with
    | nil => rfl
    | cons w ws =>
      have hgood : ∀ x ∈ w :: ws, x ≠ [] ∧ ∀ c ∈ x, isWS c = false := by
        rw [← hws]; exact pyWords_good (pyStrip l)
      have hedge := joinSep_noEdgeWS w ws hgood
      have hstrip := pyStrip_eq_self _ hedge
      have hne := joinSep_ne_nil w ws (hgood w (by simp)).1
      unfold cleanLine
      rw [hstrip, if_neg hne, pyWords_joinSep _ hgood]

/-- A cleaned line contains no newline character. -/
theorem cleanLine_no_nl (l : List Char) : '\n' ∉ cleanLine l := by
  rw [cleanLine]
  by_cases hs : pyStrip l = []
  · simp [hs]
  · rw [if_neg hs]
    intro hmem
    rcases mem_joinSep hmem with hsep | ⟨w, hw, hcw⟩
    · exact absurd hsep (by decide)
    · exact absurd ((pyWords_good (pyStrip l) w hw).2 '\n' hcw) (by decide)

theorem limitBlanks_of_noLongBlanks (ls : List (List Char)) :
    ∀ b, noLongBlanks b ls = true → limitBlanks ls b = ls := by
  induction ls with
  | nil => intro b _; rfl
  | cons l ls ih =>
    intro b h
    by_cases hl : l = []
    · rw [noLongBlanks, if_pos hl, Bool.and_eq_true, decide_eq_true_eq] at h
      rw [limitBlanks, if_pos hl, if_pos h.1, ih (b + 1) h.2]
    · rw [noLongBlanks, if_neg hl] at h
      rw [limitBlanks, if_neg hl, ih 0 h]

theorem limitBlanks_state_high (ls : List (List Char)) :
    ∀ b b', 2 ≤ b → 2 ≤ b' → limitBlanks ls b = limitBlanks ls b' := by
  induction ls with
  | nil => intro b b' _ _; rfl
  | cons l ls ih =>
    intro b b' hb hb'
    by_cases hl : l = []
    · have h1 : ¬ (b + 1 ≤ 2) := by omega
      have h2 : ¬ (b' + 1 ≤ 2) := by omega
      rw [limitBlanks, if_pos hl, if_neg h1, limitBlanks, if_pos hl, if_neg h2,
        ih (b + 1) (b' + 1) (by omega) (by omega)]
    · rw [limitBlanks, if_neg hl, limitBlanks, if_neg hl]

theorem noLongBlanks_limitBlanks (ls : List (List Char)) :
    ∀ b, noLongBlanks b (limitBlanks ls b) = true := by
  induction ls with
  | nil => intro b; rfl
  | cons l ls ih =>
    intro b
    by_cases hl : l = []
    · by_cases hb : b + 1 ≤ 2
      · rw [limitBlanks, if_pos hl, if_pos hb, noLongBlanks, if_pos hl,
          Bool.and_eq_true, decide_eq_true_eq]
        exact ⟨hb, ih (b + 1)⟩
      · rw [limitBlanks, if_pos hl, if_neg hb,
          limitBlanks_state_high ls (b + 1) b (by omega) (by omega)]
        exact ih b
    · rw [limitBlanks, if_neg hl, noLongBlanks, if_neg hl]
      exact ih 0

theorem mem_limitBlanks {x : List Char} (ls : List (List Char)) :
    ∀ b, x ∈ limitBlanks ls b → x ∈ ls := by
  induction ls with
  | nil => intro b h; simp [limitBlanks] at h
  | cons l ls ih =>
    intro b h
    by_cases hl : l = []
    · by_cases hb : b + 1 ≤ 2
      · rw [limitBlanks, if_pos hl, if_pos hb] at h
        rcases List.mem_cons.mp h with rfl | h2
        · simp
        · exact List.mem_cons_of_mem _ (ih (b + 1) h2)
      · rw [limitBlanks, if_pos hl, if_neg hb] at h
        exact List.mem_cons_of_mem _ (ih (b + 1) h)
    · rw [limitBlanks, if_neg hl] at h
      rcases List.mem_cons.mp h with rfl | h2
      · simp
      · exact List.mem_cons_of_mem _ (ih 0 h2)

theorem limitBlanks_ne_nil (l : List Char) (ls : List (List Char)) :
    limitBlanks (l :: ls) 0 ≠ [] := by
  by_cases hl : l = []
  · rw [limitBlanks, if_pos hl, if_pos (by omega)]
    simp
  · rw [limitBlanks, if_neg hl]
    simp

/-- C7: `clean_text_for_markdown` is idempotent — cleaning already cleaned
text changes nothing. -/
theorem C7_clean_text_idempotent (t : List Char) :
    clean_text_for_markdown (clean_text_for_markdown t) =
      clean_text_for_markdown t := by
  unfold clean_text_for_markdown
  set out := limitBlanks ((splitLines t).map cleanLine) 0 with hout
  have hne : out ≠ [] := by
    rw [hout]
    cases hsp : splitLines t with
    | nil => exact absurd hsp (splitLines_ne_nil t)
    | cons x xs =>
      simpa [hsp] using limitBlanks_ne_nil (cleanLine x) (xs.map cleanLine)
  have hnl : ∀ l ∈ out, '\n' ∉ l := by
    intro l hl
    rw [hout] at hl
    rcases List.mem_map.mp (mem_limitBlanks _ 0 hl) with ⟨x, _, rfl⟩
    exact cleanLine_no_nl x
  have hstab : out.map cleanLine = out := by
    have hfix : ∀ y ∈ out, cleanLine y = y := by
      intro y hy
      rw [hout] at hy
      rcases List.mem_map.mp (mem_limitBlanks _ 0 hy) with ⟨x, _, rfl⟩
      exact cleanLine_idem x
    rw [List.map_congr_left hfix]
    simp
  have hidem : limitBlanks out 0 = out := by
    rw [hout]
    exact limitBlanks_of_noLongBlanks _ 0 (noLongBlanks_limitBlanks _ 0)
  rw [splitLines_joinLines out hne hnl, hstab, hidem]
